import Mathlib

/-!
Verification development for the OpenID Federation Manager
(nckroy/openid-federation-manager).

The repository ships the SQLite schema (`database/schema.sql`), the
Node.js web frontend (`frontend/server.js`, `frontend/public/js/main.js`)
and extensive documentation, while the Python backend
(`backend/python/federation_manager.py`, `entity_statement.py`, `app.py`)
is not part of the source tree available here.  Definitions taken from
files that are present are translated directly; components whose code is
absent are modelled from the specification (each such definition carries a
doc comment starting with `Modelled from the spec:`).

Machine data is modelled with `Nat`/`Int`; JSON documents with a small
tree type; time with `Nat` timestamps (SQLite `datetime` comparisons are
order-isomorphic to these).
-/

/-- JSON-like values, the shape of `metadata` / `jwks` documents handled by
the validation engine.  A missing field is represented by `Option.none`
at the resolution layer, distinct from `JValue.null`. -/
inductive JValue where
  | null : JValue
  | bool (b : Bool) : JValue
  | num (n : Int) : JValue
  | str (s : String) : JValue
  | arr (xs : List JValue) : JValue
  | obj (fields : List (String × JValue)) : JValue

mutual

/-- Structural deep equality on JSON values (the `exact_value` rule's
deep-equals comparison). -/
def jeq : JValue → JValue → Bool
  | .null, .null => true
  | .bool a, .bool b => a == b
  | .num a, .num b => a == b
  | .str a, .str b => a == b
  | .arr xs, .arr ys => jeqList xs ys
  | .obj fs, .obj gs => jeqFields fs gs
  | _, _ => false

/-- Deep equality on JSON arrays. -/
def jeqList : List JValue → List JValue → Bool
  | [], [] => true
  | x :: xs, y :: ys => jeq x y && jeqList xs ys
  | _, _ => false

/-- Deep equality on JSON object field lists. -/
def jeqFields : List (String × JValue) → List (String × JValue) → Bool
  | [], [] => true
  | (k, v) :: fs, (k2, v2) :: gs => k == k2 && jeq v v2 && jeqFields fs gs
  | _, _ => false

end

/-- Modelled from the spec: dot-separated `field_path` resolution
(ValidationEngine, §4.2 of the spec; `federation_manager.py` is absent
from the tree).  Walks path segments through nested objects; a missing
path yields `none` (the distinguished "absent" marker), which is
different from a present `JValue.null`. -/
def resolvePath : List String → JValue → Option JValue
  | [], v => some v
  | k :: ks, .obj fields =>
      match fields.find? (fun p => p.1 == k) with
      | some p => resolvePath ks p.2
      | none => none
  | _ :: _, _ => none

/-- Minimal regular-expression syntax, enough for the rule patterns the
system stores (literals, wildcard, alternation, concatenation, star). -/
inductive Rx where
  | emp : Rx
  | eps : Rx
  | ch (c : Char) : Rx
  | any : Rx
  | alt (a b : Rx) : Rx
  | cat (a b : Rx) : Rx
  | star (a : Rx) : Rx

/-- Whether a regular expression accepts the empty string. -/
def Rx.nullable : Rx → Bool
  | .emp => false
  | .eps => true
  | .ch _ => false
  | .any => false
  | .alt a b => a.nullable || b.nullable
  | .cat a b => a.nullable && b.nullable
  | .star _ => true

/-- Brzozowski derivative of a regular expression by one character. -/
def Rx.deriv : Rx → Char → Rx
  | .emp, _ => .emp
  | .eps, _ => .emp
  | .ch c, d => if c = d then .eps else .emp
  | .any, _ => .eps
  | .alt a b, d => .alt (a.deriv d) (b.deriv d)
  | .cat a b, d =>
      if a.nullable then .alt (.cat (a.deriv d) b) (b.deriv d)
      else .cat (a.deriv d) b
  | .star a, d => .cat (a.deriv d) (.star a)

/-- Full-string regular-expression match (the `regex` validation type
requires the full pattern to match). -/
def rxMatch (r : Rx) (s : String) : Bool :=
  (s.data.foldl Rx.deriv r).nullable

/-- Concatenation of literal characters as a regular expression. -/
def litSeq (cs : List Char) : Rx :=
  cs.foldr (fun c r => Rx.cat (.ch c) r) .eps

/-- Entity type of a candidate, `CHECK(entity_type IN ('OP','RP'))` in
`database/schema.sql`. -/
inductive EntityType where
  | OP : EntityType
  | RP : EntityType
deriving DecidableEq

/-- Rule applicability type, `CHECK(entity_type IN ('OP','RP','BOTH'))`
in `database/schema.sql` (`validation_rules.entity_type`). -/
inductive RuleEntityType where
  | OP : RuleEntityType
  | RP : RuleEntityType
  | BOTH : RuleEntityType
deriving DecidableEq

/-- Modelled from the spec: a rule applies when its `entity_type` equals
the candidate's type or equals `BOTH` (§4.2). -/
def ruleApplies (rt : RuleEntityType) (t : EntityType) : Bool :=
  match rt, t with
  | .BOTH, _ => true
  | .OP, .OP => true
  | .RP, .RP => true
  | _, _ => false

/-- Modelled from the spec: the `validation_type` together with its
parsed `validation_value`, represented as a tagged variant parsed at
rule-load time (design note of §9).  `exists_` stands for the schema's
`exists` validation type. -/
inductive VCheck where
  | required : VCheck
  | exists_ : VCheck
  | exact_value (v : JValue) : VCheck
  | regex (r : Rx) : VCheck
  | range (lo hi : Option Int) : VCheck

/-- Whether a JSON value counts as empty for the `required` check
(string or list of length 0). -/
def isEmptyJ : JValue → Bool
  | .str s => s.isEmpty
  | .arr xs => xs.isEmpty
  | _ => false

/-- Modelled from the spec: the per-type check semantics of §4.2, applied
to the resolved field value (`none` = absent). -/
def checkValue : VCheck → Option JValue → Bool
  | .required, none => false
  | .required, some .null => false
  | .required, some v => !isEmptyJ v
  | .exists_, o => o.isSome
  | .exact_value _, none => false
  | .exact_value v, some w => jeq w v
  | .regex r, some (.str s) => rxMatch r s
  | .regex _, _ => false
  | .range lo hi, some (.num n) =>
      (match lo with | some l => decide (l ≤ n) | none => true) &&
      (match hi with | some h => decide (n ≤ h) | none => true)
  | .range _ _, _ => false

/-- A row of `validation_rules` (`database/schema.sql`), with the
`validation_type`/`validation_value` pair held as the parsed variant. -/
structure Rule where
  rule_name : String
  entity_type : RuleEntityType
  field_path : List String
  check : VCheck
  error_message : String
  is_active : Bool

/-- One reported rule violation: rule name and error message. -/
structure Violation where
  ruleName : String
  message : String
deriving DecidableEq

/-- Modelled from the spec: the ValidationEngine contract
`evaluate(entityType, metadata, jwks, rules) → (passed, violations)`
(§4.2).  Applicable rules are the active ones matching the entity type;
every applicable rule is evaluated and all violations are collected;
`passed` is the emptiness of the violation list. -/
def evaluate (t : EntityType) (metadata jwks : JValue) (rules : List Rule) :
    Bool × List Violation :=
  let root := JValue.obj [("metadata", metadata), ("jwks", jwks)]
  let applicable := rules.filter (fun r => r.is_active && ruleApplies r.entity_type t)
  let violations := applicable.filterMap (fun r =>
    if checkValue r.check (resolvePath r.field_path root) then none
    else some ⟨r.rule_name, r.error_message⟩)
  (violations.isEmpty, violations)

/-- Base64url alphabet character for a 6-bit value (RFC 4648 §5):
`A-Z`, `a-z`, `0-9`, `-`, `_`. -/
def b64Char (n : Nat) : Char :=
  if n < 26 then Char.ofNat (65 + n)
  else if n < 52 then Char.ofNat (97 + (n - 26))
  else if n < 62 then Char.ofNat (48 + (n - 52))
  else if n = 62 then '-' else '_'

/-- Inverse of the base64url alphabet: the 6-bit value of a character,
`none` for characters outside the alphabet (in particular for `=`). -/
def b64Val (c : Char) : Option Nat :=
  if 65 ≤ c.toNat ∧ c.toNat ≤ 90 then some (c.toNat - 65)
  else if 97 ≤ c.toNat ∧ c.toNat ≤ 122 then some (c.toNat - 97 + 26)
  else if 48 ≤ c.toNat ∧ c.toNat ≤ 57 then some (c.toNat - 48 + 52)
  else if c = '-' then some 62
  else if c = '_' then some 63
  else none

/-- Modelled from the spec: base64url encoding *without padding* of a
byte sequence (KeyManager `publicKeySet`, §4.1; the Python JWKS builder
is absent from the tree).  Bytes are taken three at a time; a final
group of one or two bytes yields two or three characters and no `=`
padding is ever appended. -/
def encB64url : List Nat → List Char
  | [] => []
  | [a] => [b64Char (a / 4), b64Char ((a % 4) * 16)]
  | [a, b] => [b64Char (a / 4), b64Char ((a % 4) * 16 + b / 16), b64Char ((b % 16) * 4)]
  | a :: b :: c :: rest =>
      b64Char (a / 4) :: b64Char ((a % 4) * 16 + b / 16) ::
      b64Char ((b % 16) * 4 + c / 64) :: b64Char (c % 64) :: encB64url rest

/-- Base64url decoding of an unpadded string: equivalent to restoring
the `=` padding and running a standard base64 decoder.  Groups of four
characters yield three bytes; a final group of two or three characters
yields one or two bytes. -/
def decB64url : List Char → Option (List Nat)
  | [] => some []
  | [c1, c2] =>
      match b64Val c1, b64Val c2 with
      | some v1, some v2 => some [v1 * 4 + v2 / 16]
      | _, _ => none
  | [c1, c2, c3] =>
      match b64Val c1, b64Val c2, b64Val c3 with
      | some v1, some v2, some v3 => some [v1 * 4 + v2 / 16, (v2 % 16) * 16 + v3 / 4]
      | _, _, _ => none
  | c1 :: c2 :: c3 :: c4 :: rest =>
      match b64Val c1, b64Val c2, b64Val c3, b64Val c4, decB64url rest with
      | some v1, some v2, some v3, some v4, some bs =>
          some ((v1 * 4 + v2 / 16) :: ((v2 % 16) * 16 + v3 / 4) ::
                ((v3 % 4) * 64 + v4) :: bs)
      | _, _, _, _, _ => none
  | [_] => none

/-- Every element is a byte value. -/
def bytesValid (bs : List Nat) : Prop := ∀ b ∈ bs, b < 256

instance : DecidablePred bytesValid := fun bs =>
  inferInstanceAs (Decidable (∀ b ∈ bs, b < 256))

/-- RSA public-key material as stored by the KeyManager: key id plus the
big-endian bytes of modulus and public exponent. -/
structure RsaKeyMaterial where
  kid : String
  modulus : List Nat
  exponent : List Nat

/-- A JWKS entry as emitted on the wire: `kty`, `kid`, and the base64url
encoded `n` (modulus) and `e` (exponent) fields, held as character
lists. -/
structure JwkEntry where
  kty : String
  kid : String
  n : List Char
  e : List Char

/-- Modelled from the spec: `publicKeySet()` (KeyManager, §4.1) returns
one JWKS entry per stored key, with `n` and `e` base64url-encoded
without padding. -/
def publicKeySet (ks : List RsaKeyMaterial) : List JwkEntry :=
  ks.map (fun k =>
    { kty := "RSA", kid := k.kid, n := encB64url k.modulus, e := encB64url k.exponent })

/-- A row of `signing_keys` (`database/schema.sql`): key id, type, PEM
key material, and the active flag. -/
structure SigningKey where
  kid : String
  key_type : String
  private_key : String
  public_key : String
  is_active : Bool
deriving DecidableEq

/-- The active keys of a signing-key store (rows with `is_active`). -/
def activeKeys (ks : List SigningKey) : List SigningKey :=
  ks.filter (fun k => k.is_active)

/-- Modelled from the spec: the phases of one `getOrCreateActiveKey()`
caller in the first-use race (§5): read the store; if empty, attempt the
storage-level insert-if-absent; on losing, re-read the winner's key. -/
inductive KmCaller where
  | ready (fresh : SigningKey) : KmCaller
  | inserting (fresh : SigningKey) : KmCaller
  | rereading (fresh : SigningKey) : KmCaller
  | done (res : SigningKey) : KmCaller
deriving DecidableEq

/-- Modelled from the spec: one atomic step of a `getOrCreateActiveKey()`
caller against the shared store.  The only write is the storage layer's
atomic insert-if-absent (§6): the insert succeeds only when no active
key exists; the loser transparently re-reads the winner's key (§5). -/
def kmStep (s : List SigningKey) : KmCaller → List SigningKey × KmCaller
  | .ready f =>
      match activeKeys s with
      | k :: _ => (s, .done k)
      | [] => (s, .inserting f)
  | .inserting f =>
      match activeKeys s with
      | [] => (s ++ [{ f with is_active := true }], .done { f with is_active := true })
      | _ :: _ => (s, .rereading f)
  | .rereading f =>
      match activeKeys s with
      | k :: _ => (s, .done k)
      | [] => (s, .done { f with is_active := true })
  | .done r => (s, .done r)

/-- Interleaved execution of two concurrent `getOrCreateActiveKey()`
callers: the schedule says which caller performs the next serialized
storage step (`true` = first caller). -/
def kmRun (s : List SigningKey) (a b : KmCaller) : List Bool → List SigningKey × KmCaller × KmCaller
  | [] => (s, a, b)
  | true :: rest =>
      let p := kmStep s a
      kmRun p.1 p.2 b rest
  | false :: rest =>
      let p := kmStep s b
      kmRun p.1 a p.2 rest

/-- Per-caller coherence with the store: a finished caller returned the
unique active key; a caller that lost the insert has seen a nonempty
store. -/
def kmGood (s : List SigningKey) : KmCaller → Prop
  | .done r => activeKeys s = [r]
  | .rereading _ => activeKeys s ≠ []
  | _ => True

/-- Joint invariant of the first-use race: at most one active key is
persisted, and both callers are coherent with the store. -/
def KmInv (s : List SigningKey) (a b : KmCaller) : Prop :=
  (activeKeys s).length ≤ 1 ∧ kmGood s a ∧ kmGood s b

/-- Modelled from the spec: `getOrCreateActiveKey()` as one serialized
call (§4.1).  Returns the persisted active key when one exists;
otherwise persists the freshly generated key, marks it active, and
returns it.  The store is the durable state: invoking it again on the
resulting store models a later call or a process restart. -/
def getOrCreateActiveKey (s : List SigningKey) (fresh : SigningKey) :
    List SigningKey × SigningKey :=
  match activeKeys s with
  | k :: _ => (s, k)
  | [] => (s ++ [{ fresh with is_active := true }], { fresh with is_active := true })

/-- Entity status, `CHECK(status IN ('pending','active','suspended',
'revoked'))` with `DEFAULT 'pending'` in `database/schema.sql`. -/
inductive EntityStatus where
  | pending : EntityStatus
  | active : EntityStatus
  | suspended : EntityStatus
  | revoked : EntityStatus
deriving DecidableEq

/-- A row of `entities` (`database/schema.sql`): globally unique
`entity_id`, entity type, status, declared metadata and key set, and
authority hints. -/
structure Entity where
  entity_id : String
  entity_type : EntityType
  status : EntityStatus
  metadata : JValue
  jwks : JValue
  authority_hints : List String

/-- Result of a registration call. -/
inductive RegisterResult where
  | ok (e : Entity) : RegisterResult
  | duplicateEntityError : RegisterResult

/-- Modelled from the spec: `EntityRegistry.register` (§4.3) backed by
the schema's `entity_id TEXT UNIQUE NOT NULL` constraint
(`database/schema.sql` line 6).  The check-then-insert is atomic at the
storage layer (§5), so the serialized model is faithful; an existing id
fails with `DuplicateEntityError` and the store is returned unchanged;
a fresh id is appended with the stored default status `pending`. -/
def register (st : List Entity) (eid : String) (ty : EntityType)
    (md jw : JValue) (hints : List String) : List Entity × RegisterResult :=
  if st.any (fun e => e.entity_id == eid) then (st, .duplicateEntityError)
  else
    let e : Entity :=
      { entity_id := eid, entity_type := ty, status := .pending,
        metadata := md, jwks := jw, authority_hints := hints }
    (st ++ [e], .ok e)

/-- A row of `entity_statements` (`database/schema.sql`): the cached
signed statement with its `FOREIGN KEY (entity_id) REFERENCES
entities(entity_id)` reference and expiry timestamp. -/
structure EntityStatement where
  entity_id : String
  issuer : String
  subject : String
  statement : String
  issued_at : Nat
  expires_at : Nat
deriving DecidableEq

/-- Modelled from the spec: `StatementIssuer.issue` (§4.4): claims with
issuer = the federation's own id, subject = the entity's id,
`expires_at = now + statement_lifetime`; signing is modelled as total
(key and signing failures are out of the reachable paths considered
here). -/
def issue (fedId : String) (e : Entity) (now lifetime : Nat) : EntityStatement :=
  { entity_id := e.entity_id, issuer := fedId, subject := e.entity_id,
    statement := fedId ++ "->" ++ e.entity_id,
    issued_at := now, expires_at := now + lifetime }

/-- The persistent database state: the three stores owned by
EntityRegistry, StatementIssuer and KeyManager. -/
structure DB where
  entities : List Entity
  statements : List EntityStatement
  signing_keys : List SigningKey

/-- Modelled from the spec: `getOrRenew(subject)` (§4.4): return the
cached statement when one exists with `expires_at` strictly after the
current time; otherwise re-issue against the still-registered entity;
an unknown subject yields `none` (NotFound). -/
def getOrRenew (fedId : String) (db : DB) (subject : String)
    (now lifetime : Nat) : DB × Option EntityStatement :=
  match db.statements.find? (fun st => st.subject == subject && decide (now < st.expires_at)) with
  | some st => (db, some st)
  | none =>
      match db.entities.find? (fun e => e.entity_id == subject) with
      | none => (db, none)
      | some e =>
          let st := issue fedId e now lifetime
          ({ db with statements := db.statements ++ [st] }, some st)

/-- The stage at which a registration workflow failed. -/
inductive WfStage where
  | fetching : WfStage
  | validating : WfStage
  | registering : WfStage
deriving DecidableEq

/-- Outcome of the registration workflow. -/
inductive WfResult where
  | done (eid : String) (st : EntityStatement) : WfResult
  | failed (stage : WfStage) (violations : List Violation) : WfResult

/-- Modelled from the spec: the five-stage RegistrationWorkflow (§4.5):
fetch → validate → register → issue → done, each failure absorbing into
`failed` with its stage.  The fetch outcome is an input (`none` models
FetchError); the registry write happens only after validation passes;
on successful issuance the entity is promoted to `active`.  Signing is
modelled as total, so the `ISSUING` stage cannot fail here. -/
def runWorkflow (fedId : String) (db : DB) (eid : String) (ty : EntityType)
    (fetched : Option (JValue × JValue × List String)) (rules : List Rule)
    (now lifetime : Nat) : DB × WfResult :=
  match fetched with
  | none => (db, .failed .fetching [])
  | some (md, jw, hints) =>
      let ev := evaluate ty md jw rules
      if ev.1 then
        match register db.entities eid ty md jw hints with
        | (_, .duplicateEntityError) => (db, .failed .registering [])
        | (ents1, .ok e) =>
            let st := issue fedId e now lifetime
            let ents2 := ents1.map (fun x =>
              if x.entity_id == eid then { x with status := EntityStatus.active } else x)
            ({ db with entities := ents2, statements := db.statements ++ [st] },
             .done eid st)
      else (db, .failed .validating ev.2)

/-- The state-mutating operations of the core, used to characterise the
reachable database states. -/
inductive FmOp where
  | register (eid : String) (ty : EntityType) (md jw : JValue) (hints : List String) : FmOp
  | getOrRenew (subject : String) (now lifetime : Nat) : FmOp
  | getOrCreateKey (fresh : SigningKey) : FmOp
  | workflow (eid : String) (ty : EntityType)
      (fetched : Option (JValue × JValue × List String)) (rules : List Rule)
      (now lifetime : Nat) : FmOp

/-- Apply one operation to the database, keeping only the state part. -/
def applyOp (fedId : String) (db : DB) : FmOp → DB
  | .register eid ty md jw hints =>
      { db with entities := (register db.entities eid ty md jw hints).1 }
  | .getOrRenew subject now lifetime => (getOrRenew fedId db subject now lifetime).1
  | .getOrCreateKey f =>
      { db with signing_keys := (getOrCreateActiveKey db.signing_keys f).1 }
  | .workflow eid ty fetched rules now lifetime =>
      (runWorkflow fedId db eid ty fetched rules now lifetime).1

/-- The empty database (a fresh deployment). -/
def emptyDB : DB := { entities := [], statements := [], signing_keys := [] }

/-- Run a sequence of operations from the empty database: the reachable
states are exactly the results of such runs. -/
def runOps (fedId : String) (ops : List FmOp) : DB :=
  ops.foldl (applyOp fedId) emptyDB

/-- Outcome of the browser form's submit handler: either the submission
is prevented (with the notification message shown) or it proceeds to
the backend. -/
inductive SubmitOutcome where
  | prevented (message : String) : SubmitOutcome
  | proceeds : SubmitOutcome
deriving DecidableEq

/-- JavaScript's `String.prototype.startsWith`, as a character-list
prefix test. -/
def jsStartsWith (s p : String) : Bool := p.data.isPrefixOf s.data

/-- The client-side submit handler of the registration form
(`frontend/public/js/main.js`, the `registerForm` submit listener): an
`entity_id` not starting with `https://` prevents submission with the
first notification; an unselected entity type (the select control's
empty-string value, falsy in the source's `!entityType` test) prevents
it with the second; otherwise the submission proceeds. -/
def registerFormSubmit (entity_id entity_type : String) : SubmitOutcome :=
  if !(jsStartsWith entity_id "https://") then
    .prevented "Entity ID must start with https://"
  else if entity_type == "" then
    .prevented "Please select an entity type"
  else .proceeds

/-- Regular expression for the documented `^https://.*` rule pattern. -/
def httpsRx : Rx := Rx.cat (litSeq "https://".data) (.star .any)

/-- Three active `OP` rules for the concrete validation-completeness
scenario: a `required` rule that passes and a `regex` and a `range` rule
that both fail on `sampleMd`. -/
def sampleRules : List Rule :=
  [ { rule_name := "issuer_required", entity_type := .OP,
      field_path := ["metadata", "issuer"], check := .required,
      error_message := "issuer is required", is_active := true },
    { rule_name := "https_issuer", entity_type := .OP,
      field_path := ["metadata", "issuer"], check := .regex httpsRx,
      error_message := "Issuer must use HTTPS", is_active := true },
    { rule_name := "max_age_range", entity_type := .OP,
      field_path := ["metadata", "max_age"], check := .range (some 60) (some 3600),
      error_message := "max_age out of range", is_active := true } ]

/-- Candidate metadata violating the `https_issuer` and `max_age_range`
rules while satisfying `issuer_required`. -/
def sampleMd : JValue :=
  .obj [("issuer", .str "http://op.example.com"), ("max_age", .num 30)]

/-- A concrete registered entity used in counterexamples and witnesses. -/
def e6 : Entity :=
  { entity_id := "https://op.example.com", entity_type := .OP,
    status := .pending, metadata := .null, jwks := .null, authority_hints := [] }

/-- A database already holding `e6`. -/
def db6 : DB := { entities := [e6], statements := [], signing_keys := [] }

/-- Two concrete freshly generated signing keys for the first-use race. -/
def kmKey1 : SigningKey :=
  { kid := "kid-1", key_type := "RSA", private_key := "pem-priv-1",
    public_key := "pem-pub-1", is_active := false }

/-- Second concurrent candidate key. -/
def kmKey2 : SigningKey :=
  { kid := "kid-2", key_type := "RSA", private_key := "pem-priv-2",
    public_key := "pem-pub-2", is_active := false }

/-- Metadata passing validation for the end-to-end workflow witness. -/
def goodMd : JValue := .obj [("issuer", .str "https://op.example.com")]

/-- A single successful registration workflow operation. -/
def ops7 : List FmOp :=
  [FmOp.workflow "https://op.example.com" .OP (some (goodMd, .obj [], [])) [] 0 86400]

/-- A registration followed by a statement retrieval. -/
def ops9 : List FmOp :=
  [FmOp.register "https://op.example.com" .OP .null .null [],
   FmOp.getOrRenew "https://op.example.com" 0 86400]

/-- Concrete RSA key material (byte values) for the JWKS witness. -/
def ks8 : List RsaKeyMaterial :=
  [{ kid := "key-1", modulus := [171, 1, 255, 16, 64], exponent := [1, 0, 1] }]

/-- Every entity with status `active` has a statement issued for it:
the separable registration / trust-issuance property (§4.3, §4.5). -/
def ActiveHasStatement (db : DB) : Prop :=
  ∀ e ∈ db.entities, e.status = EntityStatus.active →
    ∃ st ∈ db.statements, st.subject = e.entity_id

/-- The `entity_statements → entities` foreign-key invariant of
`database/schema.sql`: every cached statement row references an
existing entity row. -/
def StatementsFK (db : DB) : Prop :=
  ∀ st ∈ db.statements, ∃ e ∈ db.entities, e.entity_id = st.entity_id

/-- Filtering-then-mapping view of a conditional `filterMap`. -/
theorem filterMap_if_eq_filter_map {α β : Type} (p : α → Bool) (f : α → β)
    (l : List α) :
    l.filterMap (fun a => if p a then none else some (f a)) =
      (l.filter (fun a => !p a)).map f := by
  induction l with
  | nil => rfl
  | cons x xs ih =>
      by_cases h : p x = true <;>
        simp [List.filterMap_cons, List.filter_cons, h, ih]

/-- The active keys of an appended store split pointwise. -/
theorem activeKeys_append (s t : List SigningKey) :
    activeKeys (s ++ t) = activeKeys s ++ activeKeys t :=
  List.filter_append ..

/-- C3: for every entity type, metadata, jwks and rule set, `evaluate`
applies every active applicable rule independently and returns the
complete list of violations (never stopping at the first failure), and
`passed` is true iff that list is empty; in particular, with the three
active `OP` rules of `sampleRules` of which two fail on `sampleMd`, it
returns `passed = false` with exactly the two violations. -/
theorem evaluate_all_violations :
    (∀ (t : EntityType) (md jw : JValue) (rules : List Rule),
      (evaluate t md jw rules).2 =
        ((rules.filter (fun r => r.is_active && ruleApplies r.entity_type t)).filter
          (fun r => !checkValue r.check (resolvePath r.field_path
            (JValue.obj [("metadata", md), ("jwks", jw)])))).map
          (fun r => ⟨r.rule_name, r.error_message⟩)
      ∧ ((evaluate t md jw rules).1 = true ↔ (evaluate t md jw rules).2 = []))
    ∧ evaluate .OP sampleMd (.obj []) sampleRules =
        (false, [⟨"https_issuer", "Issuer must use HTTPS"⟩,
                 ⟨"max_age_range", "max_age out of range"⟩]) := by
  constructor
  · intro t md jw rules
    constructor
    · simpa [evaluate] using
        filterMap_if_eq_filter_map
          (fun r => checkValue r.check (resolvePath r.field_path
            (JValue.obj [("metadata", md), ("jwks", jw)])))
          (fun r => (⟨r.rule_name, r.error_message⟩ : Violation))
          (rules.filter (fun r => r.is_active && ruleApplies r.entity_type t))
    · simp [evaluate, List.isEmpty_iff]
  · decide

/-- C5: `getOrCreateActiveKey()` is idempotent across calls and across
process restarts: starting from any persisted store, a second call (on
the store left behind by the first, i.e. after any restart) returns
exactly the key the first call returned and leaves the store unchanged
— reuse, never regeneration. -/
theorem getOrCreateActiveKey_reuse :
    ∀ (s : List SigningKey) (f1 f2 : SigningKey),
      (getOrCreateActiveKey (getOrCreateActiveKey s f1).1 f2).2 =
        (getOrCreateActiveKey s f1).2
      ∧ (getOrCreateActiveKey (getOrCreateActiveKey s f1).1 f2).1 =
        (getOrCreateActiveKey s f1).1 := by
  intro s f1 f2
  cases h : activeKeys s with
  | cons k t => simp [getOrCreateActiveKey, h]
  | nil =>
      have h2 : activeKeys (s ++ [{ f1 with is_active := true }]) =
          [{ f1 with is_active := true }] := by
        rw [activeKeys_append, h]
        simp [activeKeys]
      simp [getOrCreateActiveKey, h, h2]

/-- C10: the browser registration form's submit handler prevents the
submission (showing an error notification) whenever the entered
`entity_id` does not start with `https://` or no entity type is
selected, and lets it proceed otherwise. -/
theorem registerForm_client_validation :
    ∀ entity_id entity_type : String,
      ((¬ jsStartsWith entity_id "https://" = true ∨ entity_type = "") →
        ∃ m, registerFormSubmit entity_id entity_type = .prevented m)
      ∧ (jsStartsWith entity_id "https://" = true → entity_type ≠ "" →
        registerFormSubmit entity_id entity_type = .proceeds) := by
  intro eid ty
  constructor
  · intro h
    by_cases hs : jsStartsWith eid "https://" = true
    · have hty : ty = "" := by
        rcases h with h | h
        · exact absurd hs h
        · exact h
      exact ⟨"Please select an entity type", by simp [registerFormSubmit, hs, hty]⟩
    · exact ⟨"Entity ID must start with https://", by
        simp [registerFormSubmit, hs]⟩
  · intro hs hty
    simp [registerFormSubmit, hs, hty]

/-- C10 witness: concrete form inputs exercising both rejection branches
and the accepting branch. -/
theorem registerForm_client_validation_witness :
    (∃ m, registerFormSubmit "http://op.example.com" "OP" = .prevented m)
    ∧ (∃ m, registerFormSubmit "https://op.example.com" "" = .prevented m)
    ∧ registerFormSubmit "https://op.example.com" "OP" = .proceeds :=
  ⟨(registerForm_client_validation "http://op.example.com" "OP").1
      (Or.inl (by decide)),
   (registerForm_client_validation "https://op.example.com" "").1 (Or.inr rfl),
   (registerForm_client_validation "https://op.example.com" "OP").2
      (by decide) (by decide)⟩

/-- C1: if an entity with the given id is already stored, `register`
fails with `DuplicateEntityError` and returns the store unchanged
(never overwriting the existing row); and of two registrations of the
same id — serialized in either order by the schema's `UNIQUE`
constraint — the second always fails while the first succeeds exactly
when the id was fresh, so exactly one of the two succeeds. -/
theorem register_duplicate_protection :
    ∀ (st : List Entity) (eid : String) (ty ty2 : EntityType)
      (md jw md2 jw2 : JValue) (hints hints2 : List String),
      ((∃ e ∈ st, e.entity_id = eid) →
        register st eid ty md jw hints = (st, .duplicateEntityError))
      ∧ (register (register st eid ty md jw hints).1 eid ty2 md2 jw2 hints2).2 =
          .duplicateEntityError
      ∧ (register (register st eid ty md jw hints).1 eid ty2 md2 jw2 hints2).1 =
          (register st eid ty md jw hints).1
      ∧ ((¬ ∃ e ∈ st, e.entity_id = eid) →
          ∃ e, (register st eid ty md jw hints).2 = .ok e) := by
  intro st eid ty ty2 md jw md2 jw2 hints hints2
  by_cases h : st.any (fun e => e.entity_id == eid) = true
  · refine ⟨fun _ => by simp [register, h], ?_, ?_, ?_⟩
    · simp [register, h]
    · simp [register, h]
    · intro hne
      exact absurd (by simpa using h) hne
  · have h1 : register st eid ty md jw hints =
        (st ++ [{ entity_id := eid, entity_type := ty, status := .pending,
                  metadata := md, jwks := jw, authority_hints := hints }], .ok
         { entity_id := eid, entity_type := ty, status := .pending,
           metadata := md, jwks := jw, authority_hints := hints }) := by
      simp [register, h]
    have h2 : (st ++ [{ entity_id := eid, entity_type := ty, status := .pending,
                        metadata := md, jwks := jw, authority_hints := hints
                        : Entity }]).any (fun e => e.entity_id == eid) = true := by
      simp
  
    refine ⟨fun hex => absurd (by simpa using hex) (by simpa using h), ?_, ?_, ?_⟩
    · rw [h1]; simp [register, h2]
    · rw [h1]; simp [register, h2]
    · intro _
      rw [h1]
      exact ⟨_, rfl⟩

/-- C1 witness: on an empty store, the first registration of an id
succeeds and an immediate second registration of the same id fails with
`DuplicateEntityError`. -/
theorem register_duplicate_protection_witness :
    (∃ e, (register [] "https://op.example.com" .OP .null .null []).2 = .ok e)
    ∧ (register (register [] "https://op.example.com" .OP .null .null []).1
        "https://op.example.com" .OP .null .null []).2 = .duplicateEntityError :=
  ⟨(register_duplicate_protection [] "https://op.example.com" .OP .OP
      .null .null .null .null [] []).2.2.2 (by simp),
   (register_duplicate_protection [] "https://op.example.com" .OP .OP
      .null .null .null .null [] []).2.1⟩

/-- C4: `getOrRenew` never returns a statement whose `expires_at` is at
or before the current time: a cached statement is served only when
strictly fresh, otherwise a new statement with
`expires_at = now + lifetime > now` is issued against the
still-registered entity; a subject with no cached statement and no
registered entity yields `none` (NotFound). -/
theorem getOrRenew_freshness :
    ∀ (fedId : String) (db : DB) (subject : String) (now lifetime : Nat)
      (st : EntityStatement),
      0 < lifetime →
      ((getOrRenew fedId db subject now lifetime).2 = some st →
        now < st.expires_at)
      ∧ ((∀ c ∈ db.statements, c.subject ≠ subject) →
         (∀ e ∈ db.entities, e.entity_id ≠ subject) →
         (getOrRenew fedId db subject now lifetime).2 = none) := by
  intro fedId db subject now lifetime st hl
  cases h1 : db.statements.find?
      (fun c => c.subject == subject && decide (now < c.expires_at)) with
  | some c =>
      have hp := List.find?_some h1
      have hmem := List.mem_of_find?_eq_some h1
      simp only [Bool.and_eq_true, beq_iff_eq, decide_eq_true_eq] at hp
      constructor
      · intro hres
        have : c = st := by
          simpa [getOrRenew, h1] using hres
        exact this ▸ hp.2
      · intro hc _
        exact absurd hp.1 (hc c hmem)
  | none =>
      cases h2 : db.entities.find? (fun e => e.entity_id == subject) with
      | none =>
          constructor
          · intro hres
            simp [getOrRenew, h1, h2] at hres
          · intro _ _
            simp [getOrRenew, h1, h2]
      | some e =>
          have hmem := List.mem_of_find?_eq_some h2
          have hp := List.find?_some h2
          simp only [beq_iff_eq] at hp
          constructor
          · intro hres
            have hst : st = issue fedId e now lifetime := by
              have := hres
              simp [getOrRenew, h1, h2] at this
              exact this.symm
            rw [hst]
            simp [issue]
            omega
          · intro _ he
            exact absurd hp (he e hmem)

/-- C4 witness: on a database holding a registered entity and no cached
statement, `getOrRenew` at time 5 issues a statement and its expiry
strictly exceeds the current time. -/
theorem getOrRenew_freshness_witness :
    (getOrRenew "https://fed.example.com" db6 "https://op.example.com" 5 86400).2 =
      some (issue "https://fed.example.com" e6 5 86400)
    ∧ 5 < (issue "https://fed.example.com" e6 5 86400).expires_at := by
  refine ⟨by decide, ?_⟩
  exact (getOrRenew_freshness "https://fed.example.com" db6 "https://op.example.com"
    5 86400 (issue "https://fed.example.com" e6 5 86400) (by omega)).1 (by decide)

/-- A singleton store holding a key marked active has exactly that
active key. -/
theorem activeKeys_single_true (f : SigningKey) :
    activeKeys [{ f with is_active := true }] = [{ f with is_active := true }] := by
  simp [activeKeys]

/-- One interleaved step of the first-use key race preserves the joint
invariant (stepping the first caller). -/
theorem kmStep_inv (s : List SigningKey) (a b : KmCaller) (h : KmInv s a b) :
    KmInv (kmStep s a).1 (kmStep s a).2 b := by
  obtain ⟨hlen, hga, hgb⟩ := h
  cases a with
  | ready f =>
      cases h' : activeKeys s with
      | nil =>
          exact ⟨by simpa [kmStep, h'] using hlen, by simp [kmStep, h', kmGood],
                 by simpa [kmStep, h'] using hgb⟩
      | cons k t =>
          have ht : t = [] := by
            rw [h'] at hlen
            cases t with
            | nil => rfl
            | cons x xs => simp at hlen
          subst ht
          refine ⟨by simpa [kmStep, h'] using hlen, ?_, by simpa [kmStep, h'] using hgb⟩
          simpa [kmStep, h', kmGood] using h'
  | inserting f =>
      cases h' : activeKeys s with
      | nil =>
          refine ⟨?_, ?_, ?_⟩
          · simp [kmStep, h', activeKeys_append, activeKeys_single_true]
          · simp [kmStep, h', kmGood, activeKeys_append, activeKeys_single_true]
          · cases b with
            | done r =>
                have hgb' : activeKeys s = [r] := hgb
                rw [h'] at hgb'
                simp at hgb'
            | rereading g =>
                have hgb' : activeKeys s ≠ [] := hgb
                exact absurd h' hgb'
            | ready g => simp [kmStep, h', kmGood]
            | inserting g => simp [kmStep, h', kmGood]
      | cons k t =>
          refine ⟨by simpa [kmStep, h'] using hlen, ?_, by simpa [kmStep, h'] using hgb⟩
          simp [kmStep, h', kmGood]
  | rereading f =>
      have hga' : activeKeys s ≠ [] := hga
      cases h' : activeKeys s with
      | nil => exact absurd h' hga'
      | cons k t =>
          have ht : t = [] := by
            rw [h'] at hlen
            cases t with
            | nil => rfl
            | cons x xs => simp at hlen
          subst ht
          refine ⟨by simpa [kmStep, h'] using hlen, ?_, by simpa [kmStep, h'] using hgb⟩
          simpa [kmStep, h', kmGood] using h'
  | done r =>
      exact ⟨by simpa [kmStep] using hlen, by simpa [kmStep, kmGood] using hga,
             by simpa [kmStep] using hgb⟩

/-- Any interleaving of the two callers preserves the joint invariant. -/
theorem kmRun_inv :
    ∀ (sched : List Bool) (s : List SigningKey) (a b : KmCaller),
      KmInv s a b →
      KmInv (kmRun s a b sched).1 (kmRun s a b sched).2.1 (kmRun s a b sched).2.2 := by
  intro sched
  induction sched with
  | nil => intro s a b h; simpa [kmRun] using h
  | cons x rest ih =>
      intro s a b h
      cases x with
      | true =>
          have h' := kmStep_inv s a b h
          simpa [kmRun] using ih _ _ _ h'
      | false =>
          have h' := kmStep_inv s b a ⟨h.1, h.2.2, h.2.1⟩
          have h'' : KmInv (kmStep s b).1 a (kmStep s b).2 := ⟨h'.1, h'.2.2, h'.2.1⟩
          simpa [kmRun] using ih _ _ _ h''

/-- C2: in every state reachable by interleaving two concurrent
first-use `getOrCreateActiveKey()` calls over the serialized storage
steps (single-writer arbitration via atomic insert-if-absent), at most
one signing key is active; and whenever both callers have finished,
exactly one active key is persisted and both callers returned that same
key — the loser re-read the winner's key rather than erroring. -/
theorem signingKey_single_active_race :
    ∀ (f1 f2 : SigningKey) (sched : List Bool),
      (activeKeys (kmRun [] (.ready f1) (.ready f2) sched).1).length ≤ 1
      ∧ (∀ r1 r2,
          (kmRun [] (.ready f1) (.ready f2) sched).2.1 = .done r1 →
          (kmRun [] (.ready f1) (.ready f2) sched).2.2 = .done r2 →
          activeKeys (kmRun [] (.ready f1) (.ready f2) sched).1 = [r1] ∧ r1 = r2) := by
  intro f1 f2 sched
  have h0 : KmInv [] (.ready f1) (.ready f2) :=
    ⟨by simp [activeKeys], trivial, trivial⟩
  have h := kmRun_inv sched [] (.ready f1) (.ready f2) h0
  refine ⟨h.1, ?_⟩
  intro r1 r2 h1 h2
  have ga := h.2.1
  have gb := h.2.2
  rw [h1] at ga
  rw [h2] at gb
  have ga' : activeKeys (kmRun [] (.ready f1) (.ready f2) sched).1 = [r1] := ga
  have gb' : activeKeys (kmRun [] (.ready f1) (.ready f2) sched).1 = [r2] := gb
  refine ⟨ga', ?_⟩
  have hrr : ([r1] : List SigningKey) = [r2] := ga'.symm.trans gb'
  simpa using hrr

/-- C2 witness: a concrete racing schedule in which both callers observe
the empty store, the first caller wins the insert and the second loses
and re-reads: one persisted active key, both callers return it. -/
theorem signingKey_single_active_race_witness :
    activeKeys (kmRun [] (.ready kmKey1) (.ready kmKey2)
        [true, false, true, false, false]).1 = [{ kmKey1 with is_active := true }]
    ∧ ({ kmKey1 with is_active := true } : SigningKey) =
        { kmKey1 with is_active := true } :=
  (signingKey_single_active_race kmKey1 kmKey2 [true, false, true, false, false]).2
    { kmKey1 with is_active := true } { kmKey1 with is_active := true }
    (by decide) (by decide)

/-- C6 counterexample: a registration attempt for an id that is already
registered fails at the fetch stage, yet an entity row for that id
still exists afterwards (the pre-existing one), so "no entity row for
that entity_id exists afterwards" is false as stated. -/
theorem workflow_failed_row_remains :
    (runWorkflow "https://fed.example.com" db6 "https://op.example.com" .OP
        none [] 0 86400).2 = WfResult.failed .fetching []
    ∧ ∃ e ∈ (runWorkflow "https://fed.example.com" db6 "https://op.example.com" .OP
        none [] 0 86400).1.entities, e.entity_id = "https://op.example.com" := by
  refine ⟨rfl, ⟨e6, ?_, rfl⟩⟩
  show e6 ∈ [e6]
  exact List.mem_singleton.mpr rfl

/-- C6 (amended): a registration workflow that ends FAILED at the fetch
or validation stage leaves the registry exactly as it was — it creates
no entity row; in particular, if no row for the attempted entity_id
existed before the attempt, none exists afterwards. -/
theorem workflow_failed_registry_unchanged :
    ∀ (fedId : String) (db : DB) (eid : String) (ty : EntityType)
      (fetched : Option (JValue × JValue × List String)) (rules : List Rule)
      (now lifetime : Nat) (stage : WfStage) (v : List Violation),
      (runWorkflow fedId db eid ty fetched rules now lifetime).2 = .failed stage v →
      (stage = .fetching ∨ stage = .validating) →
      (runWorkflow fedId db eid ty fetched rules now lifetime).1 = db
      ∧ ((∀ e ∈ db.entities, e.entity_id ≠ eid) →
         ∀ e ∈ (runWorkflow fedId db eid ty fetched rules now lifetime).1.entities,
           e.entity_id ≠ eid) := by
  intro fedId db eid ty fetched rules now lifetime stage v hres hstage
  have hdb : (runWorkflow fedId db eid ty fetched rules now lifetime).1 = db := by
    cases fetched with
    | none => rfl
    | some trip =>
        obtain ⟨md, jw, hints⟩ := trip
        by_cases hev : (evaluate ty md jw rules).1 = true
        · cases hr : register db.entities eid ty md jw hints with
          | mk ents r =>
              cases r with
              | duplicateEntityError => simp [runWorkflow, hev, hr]
              | ok e => simp [runWorkflow, hev, hr] at hres
        · have hev' : (evaluate ty md jw rules).1 = false := by
            simpa using hev
          simp [runWorkflow, hev']
  exact ⟨hdb, fun hno e he => hno e (hdb ▸ he)⟩

/-- C6 amended witness: a concrete attempt that fails validation (two
rule violations) on an empty database leaves the database empty and
registers no row for the attempted id. -/
theorem workflow_failed_registry_unchanged_witness :
    (runWorkflow "https://fed.example.com" emptyDB "https://op.example.com" .OP
        (some (sampleMd, .obj [], [])) sampleRules 0 86400).1 = emptyDB
    ∧ ∀ e ∈ (runWorkflow "https://fed.example.com" emptyDB "https://op.example.com" .OP
        (some (sampleMd, .obj [], [])) sampleRules 0 86400).1.entities,
        e.entity_id ≠ "https://op.example.com" := by
  have h := workflow_failed_registry_unchanged "https://fed.example.com" emptyDB
    "https://op.example.com" .OP (some (sampleMd, .obj [], [])) sampleRules 0 86400
    .validating
    [⟨"https_issuer", "Issuer must use HTTPS"⟩, ⟨"max_age_range", "max_age out of range"⟩]
    rfl (Or.inr rfl)
  exact ⟨h.1, h.2 (by simp [emptyDB])⟩

/-- Shape of a successful registration: the store gains exactly the new
row, whose id is the requested one and whose status is the stored
default `pending`. -/
theorem register_ok_shape (st : List Entity) (eid : String) (ty : EntityType)
    (md jw : JValue) (hints : List String) (ents : List Entity) (e : Entity)
    (h : register st eid ty md jw hints = (ents, .ok e)) :
    ents = st ++ [e] ∧ e.entity_id = eid ∧ e.status = .pending := by
  by_cases hdup : st.any (fun x => x.entity_id == eid) = true
  · simp [register, hdup] at h
  · simp [register, hdup] at h
    obtain ⟨h1, h2⟩ := h
    subst h2
    exact ⟨h1.symm, rfl, rfl⟩

/-- Preservation of a database predicate along any operation sequence. -/
theorem foldl_applyOp_preserves (fedId : String) (P : DB → Prop)
    (hstep : ∀ db op, P db → P (applyOp fedId db op)) :
    ∀ (ops : List FmOp) (db : DB), P db → P (ops.foldl (applyOp fedId) db) := by
  intro ops
  induction ops with
  | nil => intro db h; simpa using h
  | cons o rest ih => intro db h; exact ih _ (hstep _ _ h)

/-- Every single operation preserves the active-implies-statement
invariant: entities are created `pending`, and the only promotion to
`active` (the workflow's issuing step) appends the issued statement in
the same operation. -/
theorem applyOp_activeHasStatement (fedId : String) (db : DB) (op : FmOp)
    (h : ActiveHasStatement db) : ActiveHasStatement (applyOp fedId db op) := by
  cases op with
  | register eid ty md jw hints =>
      intro e he hstatus
      by_cases hdup : db.entities.any (fun x => x.entity_id == eid) = true
      · have hents : (applyOp fedId db (.register eid ty md jw hints)).entities =
            db.entities := by
          simp [applyOp, register, hdup]
        rw [hents] at he
        exact h e he hstatus
      · have hents : (applyOp fedId db (.register eid ty md jw hints)).entities =
            db.entities ++ [({ entity_id := eid, entity_type := ty,
                               status := .pending, metadata := md, jwks := jw,
                               authority_hints := hints } : Entity)] := by
          simp [applyOp, register, hdup]
        rw [hents] at he
        rcases List.mem_append.mp he with h1 | h1
        · exact h e h1 hstatus
        · have := List.mem_singleton.mp h1
          subst this
          simp at hstatus
  | getOrRenew subject now lifetime =>
      intro e he hstatus
      cases h1 : db.statements.find?
          (fun st => st.subject == subject && decide (now < st.expires_at)) with
      | some c =>
          have hid : applyOp fedId db (.getOrRenew subject now lifetime) = db := by
            simp [applyOp, getOrRenew, h1]
          rw [hid] at he ⊢
          exact h e he hstatus
      | none =>
          cases h2 : db.entities.find? (fun x => x.entity_id == subject) with
          | none =>
              have hid : applyOp fedId db (.getOrRenew subject now lifetime) = db := by
                simp [applyOp, getOrRenew, h1, h2]
              rw [hid] at he ⊢
              exact h e he hstatus
          | some x =>
              have hent : (applyOp fedId db (.getOrRenew subject now lifetime)).entities =
                  db.entities := by
                simp [applyOp, getOrRenew, h1, h2]
              have hstm : (applyOp fedId db (.getOrRenew subject now lifetime)).statements =
                  db.statements ++ [issue fedId x now lifetime] := by
                simp [applyOp, getOrRenew, h1, h2]
              rw [hent] at he
              rw [hstm]
              obtain ⟨st, hmem, hsub⟩ := h e he hstatus
              exact ⟨st, List.mem_append_left _ hmem, hsub⟩
  | getOrCreateKey f =>
      intro e he hstatus
      exact h e he hstatus
  | workflow eid ty fetched rules now lifetime =>
      cases fetched with
      | none =>
          intro e he hstatus
          exact h e he hstatus
      | some trip =>
          obtain ⟨md, jw, hints⟩ := trip
          by_cases hev : (evaluate ty md jw rules).1 = true
          · cases hr : register db.entities eid ty md jw hints with
            | mk ents r =>
                cases r with
                | duplicateEntityError =>
                    intro e he hstatus
                    have hid : applyOp fedId db
                        (.workflow eid ty (some (md, jw, hints)) rules now lifetime) = db := by
                      simp [applyOp, runWorkflow, hev, hr]
                    rw [hid] at he ⊢
                    exact h e he hstatus
                | ok enew =>
                    obtain ⟨hents, hid, hstat⟩ :=
                      register_ok_shape db.entities eid ty md jw hints ents enew hr
                    intro e he hstatus
                    have hent : (applyOp fedId db
                        (.workflow eid ty (some (md, jw, hints)) rules now lifetime)).entities =
                        ents.map (fun x => if x.entity_id == eid then
                          { x with status := EntityStatus.active } else x) := by
                      simp [applyOp, runWorkflow, hev, hr]
                    have hstm : (applyOp fedId db
                        (.workflow eid ty (some (md, jw, hints)) rules now lifetime)).statements =
                        db.statements ++ [issue fedId enew now lifetime] := by
                      simp [applyOp, runWorkflow, hev, hr]
                    rw [hent] at he
                    rw [hstm]
                    obtain ⟨y, hy, hfy⟩ := List.mem_map.mp he
                    by_cases hyid : (y.entity_id == eid) = true
                    · rw [if_pos hyid] at hfy
                      refine ⟨issue fedId enew now lifetime,
                        List.mem_append_right _ (List.mem_singleton.mpr rfl), ?_⟩
                      have : e.entity_id = y.entity_id := by
                        rw [← hfy]
                      rw [this, beq_iff_eq.mp hyid]
                      simp [issue, hid]
                    · rw [if_neg (by simpa using hyid)] at hfy
                      subst hfy
                      rw [hents] at hy
                      rcases List.mem_append.mp hy with h1 | h1
                      · obtain ⟨st, hmem, hsub⟩ := h y h1 hstatus
                        exact ⟨st, List.mem_append_left _ hmem, hsub⟩
                      · have := List.mem_singleton.mp h1
                        subst this
                        rw [hstat] at hstatus
                        cases hstatus
          · intro e he hstatus
            have hev' : (evaluate ty md jw rules).1 = false := by simpa using hev
            have hid : applyOp fedId db
                (.workflow eid ty (some (md, jw, hints)) rules now lifetime) = db := by
              simp [applyOp, runWorkflow, hev']
            rw [hid] at he ⊢
            exact h e he hstatus

/-- C7: every successful `register` call creates the entity with the
stored default status `pending`, and in every reachable database state
an entity has status `active` only if a statement has been issued for
it (the workflow promotes to `active` only after issuing): registration
and trust-issuance are two separable steps. -/
theorem registration_pending_then_active :
    (∀ (st : List Entity) (eid : String) (ty : EntityType) (md jw : JValue)
       (hints : List String) (ents : List Entity) (e : Entity),
       register st eid ty md jw hints = (ents, .ok e) → e.status = .pending)
    ∧ (∀ (fedId : String) (ops : List FmOp) (e : Entity),
       e ∈ (runOps fedId ops).entities → e.status = .active →
       ∃ st ∈ (runOps fedId ops).statements, st.subject = e.entity_id) := by
  constructor
  · intro st eid ty md jw hints ents e h
    exact (register_ok_shape st eid ty md jw hints ents e h).2.2
  · intro fedId ops e he hact
    have hinv := foldl_applyOp_preserves fedId ActiveHasStatement
      (fun db op h => applyOp_activeHasStatement fedId db op h) ops emptyDB
      (by intro x hx; simp [emptyDB] at hx)
    exact hinv e he hact

/-- C7 witness: a concrete successful registration yields a `pending`
entity, and after a concrete successful workflow the `active` entity
has an issued statement. -/
theorem registration_pending_then_active_witness :
    ({ entity_id := "https://op.example.com", entity_type := .OP, status := .pending,
       metadata := .null, jwks := .null, authority_hints := [] } : Entity).status = .pending
    ∧ ∃ st ∈ (runOps "https://fed.example.com" ops7).statements,
        st.subject = ({ entity_id := "https://op.example.com", entity_type := .OP,
                        status := .active, metadata := goodMd, jwks := .obj [],
                        authority_hints := [] } : Entity).entity_id := by
  constructor
  · exact registration_pending_then_active.1 [] "https://op.example.com" .OP
      .null .null [] _ _ rfl
  · refine registration_pending_then_active.2 "https://fed.example.com" ops7
      ({ entity_id := "https://op.example.com", entity_type := .OP,
         status := .active, metadata := goodMd, jwks := .obj [],
         authority_hints := [] } : Entity) ?_ rfl
    have hents : (runOps "https://fed.example.com" ops7).entities =
        [({ entity_id := "https://op.example.com", entity_type := .OP,
            status := .active, metadata := goodMd, jwks := .obj [],
            authority_hints := [] } : Entity)] := rfl
    rw [hents]
    exact List.mem_singleton.mpr rfl

/-- Every single operation preserves the statements-to-entities
foreign-key invariant: statements are only ever inserted for an entity
found in (or just appended to) the registry, and entities are never
deleted. -/
theorem applyOp_statementsFK (fedId : String) (db : DB) (op : FmOp)
    (h : StatementsFK db) : StatementsFK (applyOp fedId db op) := by
  cases op with
  | register eid ty md jw hints =>
      intro st hst
      by_cases hdup : db.entities.any (fun x => x.entity_id == eid) = true
      · have hents : (applyOp fedId db (.register eid ty md jw hints)).entities =
            db.entities := by
          simp [applyOp, register, hdup]
        rw [hents]
        exact h st hst
      · have hents : (applyOp fedId db (.register eid ty md jw hints)).entities =
            db.entities ++ [({ entity_id := eid, entity_type := ty,
                               status := .pending, metadata := md, jwks := jw,
                               authority_hints := hints } : Entity)] := by
          simp [applyOp, register, hdup]
        obtain ⟨e, he, heq⟩ := h st hst
        rw [hents]
        exact ⟨e, List.mem_append_left _ he, heq⟩
  | getOrRenew subject now lifetime =>
      intro st hst
      cases h1 : db.statements.find?
          (fun c => c.subject == subject && decide (now < c.expires_at)) with
      | some c =>
          have hid : applyOp fedId db (.getOrRenew subject now lifetime) = db := by
            simp [applyOp, getOrRenew, h1]
          rw [hid] at hst ⊢
          exact h st hst
      | none =>
          cases h2 : db.entities.find? (fun x => x.entity_id == subject) with
          | none =>
              have hid : applyOp fedId db (.getOrRenew subject now lifetime) = db := by
                simp [applyOp, getOrRenew, h1, h2]
              rw [hid] at hst ⊢
              exact h st hst
          | some x =>
              have hent : (applyOp fedId db (.getOrRenew subject now lifetime)).entities =
                  db.entities := by
                simp [applyOp, getOrRenew, h1, h2]
              have hstm : (applyOp fedId db (.getOrRenew subject now lifetime)).statements =
                  db.statements ++ [issue fedId x now lifetime] := by
                simp [applyOp, getOrRenew, h1, h2]
              rw [hstm] at hst
              rw [hent]
              rcases List.mem_append.mp hst with h1' | h1'
              · exact h st h1'
              · have := List.mem_singleton.mp h1'
                subst this
                exact ⟨x, List.mem_of_find?_eq_some h2, rfl⟩
  | getOrCreateKey f =>
      intro st hst
      exact h st hst
  | workflow eid ty fetched rules now lifetime =>
      cases fetched with
      | none =>
          intro st hst
          exact h st hst
      | some trip =>
          obtain ⟨md, jw, hints⟩ := trip
          by_cases hev : (evaluate ty md jw rules).1 = true
          · cases hr : register db.entities eid ty md jw hints with
            | mk ents r =>
                cases r with
                | duplicateEntityError =>
                    intro st hst
                    have hid : applyOp fedId db
                        (.workflow eid ty (some (md, jw, hints)) rules now lifetime) = db := by
                      simp [applyOp, runWorkflow, hev, hr]
                    rw [hid] at hst ⊢
                    exact h st hst
                | ok enew =>
                    obtain ⟨hents, hid, hstat⟩ :=
                      register_ok_shape db.entities eid ty md jw hints ents enew hr
                    intro st hst
                    have hent : (applyOp fedId db
                        (.workflow eid ty (some (md, jw, hints)) rules now lifetime)).entities =
                        ents.map (fun x => if x.entity_id == eid then
                          { x with status := EntityStatus.active } else x) := by
                      simp [applyOp, runWorkflow, hev, hr]
                    have hstm : (applyOp fedId db
                        (.workflow eid ty (some (md, jw, hints)) rules now lifetime)).statements =
                        db.statements ++ [issue fedId enew now lifetime] := by
                      simp [applyOp, runWorkflow, hev, hr]
                    rw [hstm] at hst
                    rw [hent]
                    rcases List.mem_append.mp hst with h1' | h1'
                    · obtain ⟨e, he, heq⟩ := h st h1'
                      have hemem : e ∈ ents := by
                        rw [hents]
                        exact List.mem_append_left _ he
                      refine ⟨(fun x => if x.entity_id == eid then
                          { x with status := EntityStatus.active } else x) e,
                        List.mem_map_of_mem _ hemem, ?_⟩
                      by_cases hc : (e.entity_id == eid) = true
                      · simp only [hc, if_true]
                        exact heq
                      · simp only [hc, if_false, Bool.false_eq_true]
                        exact heq
                    · have := List.mem_singleton.mp h1'
                      subst this
                      have hemem : enew ∈ ents := by
                        rw [hents]
                        exact List.mem_append_right _ (List.mem_singleton.mpr rfl)
                      refine ⟨(fun x => if x.entity_id == eid then
                          { x with status := EntityStatus.active } else x) enew,
                        List.mem_map_of_mem _ hemem, ?_⟩
                      have hc : (enew.entity_id == eid) = true := beq_iff_eq.mpr hid
                      simp only [hc, if_true]
                      rfl
          · intro st hst
            have hev' : (evaluate ty md jw rules).1 = false := by simpa using hev
            have hid : applyOp fedId db
                (.workflow eid ty (some (md, jw, hints)) rules now lifetime) = db := by
              simp [applyOp, runWorkflow, hev']
            rw [hid] at hst ⊢
            exact h st hst

/-- C9: in every database state reachable from a fresh deployment under
the core's operations, each cached statement row's `entity_id` equals
the `entity_id` of some existing entity row — the schema's foreign key
from `entity_statements` to `entities` holds: no statement is ever
cached for an entity that was never registered. -/
theorem statements_respect_fk :
    ∀ (fedId : String) (ops : List FmOp) (st : EntityStatement),
      st ∈ (runOps fedId ops).statements →
      ∃ e ∈ (runOps fedId ops).entities, e.entity_id = st.entity_id := by
  intro fedId ops st hst
  have hinv := foldl_applyOp_preserves fedId StatementsFK
    (fun db op h => applyOp_statementsFK fedId db op h) ops emptyDB
    (by intro x hx; simp [emptyDB] at hx)
  exact hinv st hst

/-- C9 witness: after a concrete registration and statement retrieval,
the cached statement's entity reference resolves to a registered
entity. -/
theorem statements_respect_fk_witness :
    ∃ e ∈ (runOps "https://fed.example.com" ops9).entities,
      e.entity_id = (issue "https://fed.example.com" e6 0 86400).entity_id := by
  refine statements_respect_fk "https://fed.example.com" ops9
    (issue "https://fed.example.com" e6 0 86400) ?_
  have hs : (runOps "https://fed.example.com" ops9).statements =
      [issue "https://fed.example.com" e6 0 86400] := rfl
  rw [hs]
  exact List.mem_singleton.mpr rfl

/-- The alphabet map is inverted by the value map on all 6-bit values. -/
theorem b64Val_b64Char : ∀ v < 64, b64Val (b64Char v) = some v := by decide

/-- No 6-bit value encodes to the padding character. -/
theorem b64Char_ne_pad : ∀ v < 64, b64Char v ≠ '=' := by decide

/-- Unpadded base64url encoding of bytes never contains `=`. -/
theorem encB64url_no_pad : ∀ (bs : List Nat), bytesValid bs → '=' ∉ encB64url bs
  | [], _ => by simp [encB64url]
  | [a], h => by
      have ha : a < 256 := h a (by simp)
      intro hm
      simp [encB64url] at hm
      rcases hm with hm | hm
      · exact b64Char_ne_pad _ (by omega) hm.symm
      · exact b64Char_ne_pad _ (by omega) hm.symm
  | [a, b], h => by
      have ha : a < 256 := h a (by simp)
      have hb : b < 256 := h b (by simp)
      intro hm
      simp [encB64url] at hm
      rcases hm with hm | hm | hm
      · exact b64Char_ne_pad _ (by omega) hm.symm
      · exact b64Char_ne_pad _ (by omega) hm.symm
      · exact b64Char_ne_pad _ (by omega) hm.symm
  | [a, b, c], h => by
      have ha : a < 256 := h a (by simp)
      have hb : b < 256 := h b (by simp)
      have hc : c < 256 := h c (by simp)
      intro hm
      simp [encB64url] at hm
      rcases hm with hm | hm | hm | hm
      · exact b64Char_ne_pad _ (by omega) hm.symm
      · exact b64Char_ne_pad _ (by omega) hm.symm
      · exact b64Char_ne_pad _ (by omega) hm.symm
      · exact b64Char_ne_pad _ (by omega) hm.symm
  | a :: b :: c :: d :: rest, h => by
      have ha : a < 256 := h a (by simp)
      have hb : b < 256 := h b (by simp)
      have hc : c < 256 := h c (by simp)
      have ih : '=' ∉ encB64url (d :: rest) :=
        encB64url_no_pad (d :: rest) (fun x hx => h x (by simp at hx ⊢; tauto))
      intro hm
      simp [encB64url] at hm
      rcases hm with hm | hm | hm | hm | hm
      · exact b64Char_ne_pad _ (by omega) hm.symm
      · exact b64Char_ne_pad _ (by omega) hm.symm
      · exact b64Char_ne_pad _ (by omega) hm.symm
      · exact b64Char_ne_pad _ (by omega) hm.symm
      · exact ih hm

/-- Decoding (with padding restored) inverts the unpadded base64url
encoding on byte sequences. -/
theorem decB64url_encB64url :
    ∀ (bs : List Nat), bytesValid bs → decB64url (encB64url bs) = some bs
  | [], _ => rfl
  | [a], h => by
      have ha : a < 256 := h a (by simp)
      have h1 : b64Val (b64Char (a / 4)) = some (a / 4) :=
        b64Val_b64Char _ (by omega)
      have h2 : b64Val (b64Char (a % 4 * 16)) = some (a % 4 * 16) :=
        b64Val_b64Char _ (by omega)
      simp [encB64url, decB64url, h1, h2]
      omega
  | [a, b], h => by
      have ha : a < 256 := h a (by simp)
      have hb : b < 256 := h b (by simp)
      have h1 : b64Val (b64Char (a / 4)) = some (a / 4) :=
        b64Val_b64Char _ (by omega)
      have h2 : b64Val (b64Char (a % 4 * 16 + b / 16)) = some (a % 4 * 16 + b / 16) :=
        b64Val_b64Char _ (by omega)
      have h3 : b64Val (b64Char (b % 16 * 4)) = some (b % 16 * 4) :=
        b64Val_b64Char _ (by omega)
      simp [encB64url, decB64url, h1, h2, h3]
      omega
  | [a, b, c], h => by
      have ha : a < 256 := h a (by simp)
      have hb : b < 256 := h b (by simp)
      have hc : c < 256 := h c (by simp)
      have h1 : b64Val (b64Char (a / 4)) = some (a / 4) :=
        b64Val_b64Char _ (by omega)
      have h2 : b64Val (b64Char (a % 4 * 16 + b / 16)) = some (a % 4 * 16 + b / 16) :=
        b64Val_b64Char _ (by omega)
      have h3 : b64Val (b64Char (b % 16 * 4 + c / 64)) = some (b % 16 * 4 + c / 64) :=
        b64Val_b64Char _ (by omega)
      have h4 : b64Val (b64Char (c % 64)) = some (c % 64) :=
        b64Val_b64Char _ (by omega)
      simp [encB64url, decB64url, h1, h2, h3, h4]
      omega
  | a :: b :: c :: d :: rest, h => by
      have ha : a < 256 := h a (by simp)
      have hb : b < 256 := h b (by simp)
      have hc : c < 256 := h c (by simp)
      have ih : decB64url (encB64url (d :: rest)) = some (d :: rest) :=
        decB64url_encB64url (d :: rest) (fun x hx => h x (by simp at hx ⊢; tauto))
      have h1 : b64Val (b64Char (a / 4)) = some (a / 4) :=
        b64Val_b64Char _ (by omega)
      have h2 : b64Val (b64Char (a % 4 * 16 + b / 16)) = some (a % 4 * 16 + b / 16) :=
        b64Val_b64Char _ (by omega)
      have h3 : b64Val (b64Char (b % 16 * 4 + c / 64)) = some (b % 16 * 4 + c / 64) :=
        b64Val_b64Char _ (by omega)
      have h4 : b64Val (b64Char (c % 64)) = some (c % 64) :=
        b64Val_b64Char _ (by omega)
      simp [encB64url, decB64url, h1, h2, h3, h4, ih]
      omega

/-- C8: every key entry emitted by `publicKeySet` has base64url-encoded
`n` and `e` fields containing no `=` padding characters, and after
padding is restored (standard decoding of the unpadded text) they
decode to exactly the original key's modulus and exponent bytes. -/
theorem publicKeySet_b64url :
    ∀ (ks : List RsaKeyMaterial),
      (∀ k ∈ ks, bytesValid k.modulus ∧ bytesValid k.exponent) →
      ∀ en ∈ publicKeySet ks,
        ('=' ∉ en.n ∧ '=' ∉ en.e)
        ∧ ∃ k ∈ ks, en.kid = k.kid ∧ decB64url en.n = some k.modulus
            ∧ decB64url en.e = some k.exponent := by
  intro ks hv en hen
  obtain ⟨k, hk, hke⟩ := List.mem_map.mp hen
  subst hke
  exact ⟨⟨encB64url_no_pad _ (hv k hk).1, encB64url_no_pad _ (hv k hk).2⟩,
    k, hk, rfl, decB64url_encB64url _ (hv k hk).1,
    decB64url_encB64url _ (hv k hk).2⟩

/-- C8 witness: concrete five-byte modulus material round-trips through
the emitted key set's encoding with no padding character. -/
theorem publicKeySet_b64url_witness :
    '=' ∉ encB64url [171, 1, 255, 16, 64]
    ∧ decB64url (encB64url [171, 1, 255, 16, 64]) = some [171, 1, 255, 16, 64] := by
  have h := publicKeySet_b64url ks8 (by decide)
    ({ kty := "RSA", kid := "key-1", n := encB64url [171, 1, 255, 16, 64],
       e := encB64url [1, 0, 1] } : JwkEntry)
    (by
      have hp : publicKeySet ks8 =
          [({ kty := "RSA", kid := "key-1", n := encB64url [171, 1, 255, 16, 64],
              e := encB64url [1, 0, 1] } : JwkEntry)] := rfl
      rw [hp]
      exact List.mem_singleton.mpr rfl)
  refine ⟨h.1.1, ?_⟩
  obtain ⟨k, hk, hkid, hn, he⟩ := h.2
  have hks : ks8 = [({ kid := "key-1", modulus := [171, 1, 255, 16, 64],
                       exponent := [1, 0, 1] } : RsaKeyMaterial)] := rfl
  rw [hks] at hk
  have hkk := List.mem_singleton.mp hk
  rw [hkk] at hn
  exact hn
